import Mathlib

/-!
Verification of the pipeline compilation, caching and orchestrated-execution
core of the zenml repository, as a shallow embedding in Lean 4.

Conventions used throughout:
* UUIDs and timestamps are modelled as `Nat` (only identity and ordering of
  these values matter to the verified code).
* Python dicts are modelled as association lists `List (String × V)`;
  dict values that the code only passes around are modelled as `String`
  (their serialized form).
* Fallible code returns `Except`.
-/

/- ### Canonical ordering of dictionary keys

The fingerprint engine serializes dict-valued components in sorted-key
order.  Lean's built-in `String` order does not reduce well in the kernel,
so we use an explicit lexicographic comparison on the underlying character
lists (equivalent as a linear order, and fully executable). -/

/-- Lexicographic less-or-equal on character lists, comparing code points. -/
def strLeB : List Char → List Char → Bool
  | [], _ => true
  | _ :: _, [] => false
  | c :: cs, d :: ds =>
    if c.toNat < d.toNat then true
    else if d.toNat < c.toNat then false
    else strLeB cs ds

/-- Key order on association-list entries: compare the `String` keys. -/
def keyLE {V : Type} (a b : String × V) : Prop :=
  strLeB a.1.data b.1.data = true

/-- Strict key order on association-list entries. -/
def keyLT {V : Type} (a b : String × V) : Prop :=
  strLeB a.1.data b.1.data = true ∧ strLeB b.1.data a.1.data = false

instance {V : Type} : DecidableRel (@keyLE V) := fun a b => by
  unfold keyLE; infer_instance

/-- Sorts an association list by key; the canonical serialization order of a
dict-valued component. -/
def sortByKey {V : Type} (l : List (String × V)) : List (String × V) :=
  List.insertionSort keyLE l

/-- First-some choice between two optional values (Python's
`a if a is not None else b`), the precedence combinator of the
configuration merge. -/
def opt_or {α : Type} (a b : Option α) : Option α :=
  match a with
  | some x => some x
  | none => b

/- ### Data model (translated from `src/zenml/config/step_configurations.py`
and the execution-status enumeration) -/

/-- Execution status of a pipeline run or step run (`zenml.enums`):
`PENDING -> RUNNING -> {COMPLETED, CACHED, FAILED}`. -/
inductive ExecutionStatus
  | pending
  | running
  | completed
  | cached
  | failed
deriving DecidableEq, Repr

/-- Complete input/output artifact configuration
(`ArtifactConfiguration` in `step_configurations.py`). -/
structure ArtifactConfiguration where
  artifact_source : String
  materializer_source : String
deriving DecidableEq, Repr

/-- Step configuration (`StepConfiguration` in `step_configurations.py`).
Dict-valued fields are association lists with serialized values; `settings`
is omitted (not consumed by the verified components).  The
`caching_parameters` field is absent from the translated source revision of
`step_configurations.py` but is exercised by the repository's cache-utils
tests and named by the spec as a fingerprint component, so it is carried
here. -/
structure StepConfiguration where
  name : String
  enable_cache : Bool
  step_operator : Option String := none
  experiment_tracker : Option String := none
  parameters : List (String × String) := []
  extra : List (String × String) := []
  caching_parameters : List (String × String) := []
  inputs : List (String × ArtifactConfiguration) := []
  outputs : List (String × ArtifactConfiguration) := []
  docstring : Option String := none
deriving DecidableEq, Repr

/-- Step specification (`StepSpec` in `step_configurations.py`): the source
path of the step and the exact upstream step names. -/
structure StepSpec where
  source : String
  upstream_steps : List String
deriving DecidableEq, Repr

/-- Equality of step specifications, translated from `StepSpec.__eq__`:
the upstream steps must be equal and the sources must be equal or one must
be a (string) suffix of the other (`str.endswith`), which makes the
comparison robust against module renames. -/
def StepSpec.specEq (a b : StepSpec) : Bool :=
  if a.upstream_steps = b.upstream_steps then
    if a.source = b.source then true
    else if decide (b.source.data <:+ a.source.data) then true
    else if decide (a.source.data <:+ b.source.data) then true
    else false
  else false

/-- A compiled step (`Step` in `step_configurations.py`): a spec paired with
a fully resolved configuration. -/
structure Step where
  spec : StepSpec
  config : StepConfiguration
deriving DecidableEq, Repr

/- ### Fingerprint Engine (spec §4.1) -/

/-- Modelled from the spec: the identity of the target artifact store as
consumed by `generate_cache_key` — its id and its resolved storage path
(the `BaseArtifactStore` class is not part of the source excerpt). -/
structure ArtifactStoreInfo where
  id : Nat
  path : String
deriving DecidableEq, Repr

/-- Modelled from the spec: the cache key returned by the fingerprint
engine.  The spec prescribes "a canonical, order-independent serialization
of each of the components … and a cryptographic hash … returning the hex
digest"; the hash of the canonical serialization is modelled by the
canonical serialization itself (i.e. the hash is treated as injective), so
equality of `CacheKey` values coincides with equality of the digests. -/
structure CacheKey where
  project_id : Nat
  artifact_store_id : Nat
  artifact_store_path : String
  step_source : String
  step_parameters : List (String × String)
  step_outputs : List (String × ArtifactConfiguration)
  input_artifact_ids : List (String × Nat)
  caching_parameters : List (String × String)
deriving DecidableEq, Repr

/-- Modelled from the spec: `generate_cache_key` of
`zenml.orchestrators.cache_utils` (the module itself is not under the
source excerpt; only its unit tests are).  The key is built from the
project id, the artifact store's id and path, the step's source, its
resolved parameters, its declared output artifact/materializer bindings,
the input-artifact-id map and the declared caching parameters; every
dict-valued component enters in sorted-key order, making the key
independent of dict construction order.  Run id, wall-clock time and
random values are not inputs of the function at all. -/
def generate_cache_key (step : Step) (input_artifact_ids : List (String × Nat))
    (artifact_store : ArtifactStoreInfo) (project_id : Nat) : CacheKey :=
  { project_id := project_id
    artifact_store_id := artifact_store.id
    artifact_store_path := artifact_store.path
    step_source := step.spec.source
    step_parameters := sortByKey step.config.parameters
    step_outputs := sortByKey step.config.outputs
    input_artifact_ids := sortByKey input_artifact_ids
    caching_parameters := sortByKey step.config.caching_parameters }

/- ### Cache policy and Cache Lookup (spec §4.3) -/

/-- Modelled from the spec: `is_cache_enabled` of
`zenml.orchestrators.cache_utils` (module not under the source excerpt).
Precedence: an explicit step-level flag always wins; otherwise the
pipeline-level flag; otherwise caching defaults to enabled. -/
def is_cache_enabled (step_enable_cache : Option Bool)
    (pipeline_enable_cache : Option Bool) : Bool :=
  match step_enable_cache with
  | some b => b
  | none =>
    match pipeline_enable_cache with
    | some b => b
    | none => true

/-- An artifact record of the metadata store: an immutable reference to a
materialized value (spec §3). -/
structure ArtifactRecord where
  id : Nat
  uri : String
deriving DecidableEq, Repr

/-- A step-run record of the metadata store (spec §3): name, status,
cache key, creation timestamp and named output artifact links. -/
structure StepRunRecord where
  id : Nat
  pipeline_run_id : Nat
  name : String
  status : ExecutionStatus
  cache_key : String
  created : Nat
  output_artifacts : List (String × ArtifactRecord)
deriving DecidableEq, Repr

/-- Filter accepted by the metadata store's `list_run_steps` (spec §6: at
minimum `pipeline_run_id`, `name`, `cache_key`, `status`, sorted by
creation time descending, with a page-size limit). -/
structure StepRunFilter where
  pipeline_run_id : Option Nat := none
  name : Option String := none
  cache_key : Option String := none
  status : Option ExecutionStatus := none
  descending_by_created : Bool := false
  size : Option Nat := none
deriving Repr

/-- Whether a step-run record satisfies every set field of a filter. -/
def matches_filter (f : StepRunFilter) (r : StepRunRecord) : Bool :=
  (match f.pipeline_run_id with | some i => r.pipeline_run_id == i | none => true) &&
  (match f.name with | some n => r.name == n | none => true) &&
  (match f.cache_key with | some k => r.cache_key == k | none => true) &&
  (match f.status with | some s => r.status == s | none => true)

/-- Descending creation-time order on step-run records. -/
def createdGE (a b : StepRunRecord) : Prop := b.created ≤ a.created

instance : DecidableRel createdGE := fun a b => by
  unfold createdGE; infer_instance

/-- Modelled from the spec: the metadata store's `list_run_steps` query
(declared in `src/zenml/zen_stores/zen_store_interface.py`; the concrete
store is out of the source excerpt).  The store's contents are passed
explicitly as a list of records: the result is every record matching the
filter, sorted by creation time descending when requested, truncated to the
page size. -/
def list_run_steps (store : List StepRunRecord) (f : StepRunFilter) :
    List StepRunRecord :=
  let filtered := store.filter (matches_filter f)
  let sorted :=
    if f.descending_by_created then List.insertionSort createdGE filtered
    else filtered
  match f.size with
  | some n => sorted.take n
  | none => sorted

/-- Modelled from the spec: `get_cached_step_run` of
`zenml.orchestrators.cache_utils` (module not under the source excerpt).
Queries the store for step runs with the given cache key and status
COMPLETED, sorted descending by creation time with limit 1, and returns
the single candidate if any; `none` is an ordinary result, not an error. -/
def get_cached_step_run (store : List StepRunRecord) (cache_key : String) :
    Option StepRunRecord :=
  (list_run_steps store
    { cache_key := some cache_key
      status := some ExecutionStatus.completed
      descending_by_created := true
      size := some 1 }).head?

/- ### Input Resolver (spec §4.2) -/

/-- Modelled from the spec: a declared input of a step's spec, written
`name -> \x7bstep_name, output_name\x7d` (the `InputSpec` class postdates
the translated revision of `step_configurations.py`). -/
structure InputSpec where
  step_name : String
  output_name : String
deriving DecidableEq, Repr

/-- The reason input resolution failed: the referenced upstream step has no
run in this pipeline run, or its run records no output under the declared
output name (spec §7 distinguishes the two for diagnostics; both are fatal
to the step). -/
inductive InputResolutionError
  | missingStepRun (step_name : String)
  | missingOutput (step_name output_name : String)
deriving DecidableEq, Repr

/-- The step run of the given pipeline run carrying the given step name, as
found by querying the metadata store (each step name appears once per run
by construction; the first match is used). -/
def firstUpstream (store : List StepRunRecord) (run_id : Nat)
    (step_name : String) : Option StepRunRecord :=
  (list_run_steps store
    { pipeline_run_id := some run_id, name := some step_name }).head?

/-- Resolves the declared inputs one by one, accumulating the input map and
the producing step-run ids; the first failure aborts resolution. -/
def resolve_inputs_list (store : List StepRunRecord) (run_id : Nat) :
    List (String × InputSpec) →
    Except InputResolutionError (List (String × ArtifactRecord) × List Nat)
  | [] => .ok ([], [])
  | (input_name, ispec) :: rest =>
    match firstUpstream store run_id ispec.step_name with
    | none => .error (.missingStepRun ispec.step_name)
    | some sr =>
      match sr.output_artifacts.lookup ispec.output_name with
      | none => .error (.missingOutput ispec.step_name ispec.output_name)
      | some art =>
        match resolve_inputs_list store run_id rest with
        | .error e => .error e
        | .ok (m, ps) => .ok ((input_name, art) :: m, sr.id :: ps)

/-- Modelled from the spec: `resolve_step_inputs` of
`zenml.orchestrators.input_utils` (module not under the source excerpt).
For each declared input of the step's spec, the store is queried for the
step run of this pipeline run carrying the upstream step name, that run's
recorded output artifacts are searched for the declared output name, and
the resolved artifact and producing step-run id are collected; the
function returns the complete input map together with the deduplicated
list of parent step-run ids, or the first `InputResolutionError`.  The
step's spec contributes only its declared inputs mapping, which is passed
directly. -/
def resolve_step_inputs (store : List StepRunRecord)
    (inputs : List (String × InputSpec)) (run_id : Nat) :
    Except InputResolutionError (List (String × ArtifactRecord) × List Nat) :=
  match resolve_inputs_list store run_id inputs with
  | .error e => .error e
  | .ok (m, ps) => .ok (m, ps.dedup)

/- ### Compiler and run-configuration merge (spec §4.4) -/

/-- Modelled from the spec: the run configuration supplied at invocation
(`PipelineRunConfiguration`): an optional run name, an optional run-level
cache override, and the dict-valued `extra` setting. -/
structure PipelineRunConfiguration where
  run_name : Option String := none
  enable_cache : Option Bool := none
  extra : List (String × String) := []
deriving DecidableEq, Repr

/-- Modelled from the spec: a dict-valued setting of a higher-precedence
source is merged key-by-key over the lower-precedence dict unless the
caller requests full replacement, in which case it replaces it outright.
Lookup finds the first entry for a key, so listing the overriding entries
first realizes "higher precedence wins per key". -/
def merge_dict (base override : List (String × String)) (merge : Bool) :
    List (String × String) :=
  if merge then override ++ base else override

/-- Modelled from the spec: merging one run-configuration source over a
lower-precedence one — scalar (optional) fields of the higher-precedence
source win outright when set, the `extra` dict is merged key-by-key. -/
def merge_run_configuration (base override : PipelineRunConfiguration) :
    PipelineRunConfiguration :=
  { run_name := opt_or override.run_name base.run_name
    enable_cache := opt_or override.enable_cache base.enable_cache
    extra := merge_dict base.extra override.extra true }

/-- Modelled from the spec: the three precedence-ordered configuration
sources, highest wins — (1) run-time explicit overrides, (2) the
run-configuration file/object supplied at invocation, (3) in-code
decorator defaults. -/
def three_tier_run_configuration
    (code_defaults file_config runtime_overrides : PipelineRunConfiguration) :
    PipelineRunConfiguration :=
  merge_run_configuration
    (merge_run_configuration code_defaults file_config) runtime_overrides

/-- Modelled from the spec: applying a config-yaml's per-step `parameters`
dict over parameters already set in code (`BasePipeline.with_config`).  By
default values set in code are kept; when `overwrite_step_parameters` is
requested the yaml values win.  Either way the dicts are merged
key-by-key. -/
def apply_config_parameters (code_params yaml_params : List (String × String))
    (overwrite_step_parameters : Bool) : List (String × String) :=
  if overwrite_step_parameters then merge_dict code_params yaml_params true
  else merge_dict yaml_params code_params true

/-- Modelled from the spec: a step as written in code — its name, source,
upstream names, decorator-level flags and dict-valued settings. -/
structure StepDefinition where
  name : String
  source : String
  upstream_steps : List String := []
  enable_cache : Option Bool := none
  step_operator : Option String := none
  parameters : List (String × String) := []
  caching_parameters : List (String × String) := []
  outputs : List (String × ArtifactConfiguration) := []
deriving DecidableEq, Repr

/-- Modelled from the spec: a pipeline as written in code — its name, the
decorator-level cache flag and its steps in declaration order. -/
structure PipelineDefinition where
  name : String
  enable_cache : Option Bool := none
  steps : List StepDefinition
deriving DecidableEq, Repr

/-- Modelled from the spec: the resolved set of backend components consumed
by the compiler; only the component referenced by the verified claims (the
optional step operator, by name) is carried. -/
structure Stack where
  step_operator : Option String := none
deriving DecidableEq, Repr

/-- A compilation failure (spec §7): a stack-validation error (a step
names a step operator the stack does not provide) or a
configuration error (an upstream name that is not a step of the
pipeline). -/
inductive CompileError
  | stackValidation (step_name : String) (operator : String)
  | unknownUpstream (step_name upstream : String)
deriving DecidableEq, Repr

/-- Modelled from the spec: every step operator named in a step's
configuration must exist as a component on the target stack. -/
def validate_stack (pdef : PipelineDefinition) (stack : Stack) :
    Except CompileError Unit :=
  match pdef.steps.find? (fun s =>
    match s.step_operator with
    | some op => !(stack.step_operator == some op)
    | none => false) with
  | some s => .error (.stackValidation s.name (s.step_operator.getD ""))
  | none => .ok ()

/-- Modelled from the spec: every declared upstream name must exist in the
step set of the pipeline. -/
def validate_upstream (pdef : PipelineDefinition) : Except CompileError Unit :=
  match (pdef.steps.map (fun s =>
      s.upstream_steps.filter
        (fun u => !(pdef.steps.map StepDefinition.name).contains u) |>.map
        (fun u => (s.name, u)))).flatten.head? with
  | some (sname, u) => .error (.unknownUpstream sname u)
  | none => .ok ()

/-- The compiled, fully resolved execution plan for one intended run
(spec §3, `Deployment`). -/
structure Deployment where
  pipeline_enable_cache : Bool
  run_name : Option String
  extra : List (String × String)
  steps : List Step
deriving DecidableEq, Repr

/-- Modelled from the spec: compiling one step — the spec captures the
exact source and upstream names; the configuration is fully resolved, with
the run-level cache override, when present, taking precedence over the
step-level and pipeline-level flags (otherwise the `is_cache_enabled`
precedence applies). -/
def compile_step (s : StepDefinition) (pdef : PipelineDefinition)
    (run_config : PipelineRunConfiguration) : Step :=
  { spec := { source := s.source, upstream_steps := s.upstream_steps }
    config :=
      { name := s.name
        enable_cache :=
          match run_config.enable_cache with
          | some b => b
          | none => is_cache_enabled s.enable_cache pdef.enable_cache
        step_operator := s.step_operator
        parameters := s.parameters
        caching_parameters := s.caching_parameters
        outputs := s.outputs } }

/-- Modelled from the spec: `Compiler.compile(pipeline, stack,
run_configuration) -> Deployment`.  Validates the stack and the upstream
references, then produces the immutable deployment whose pipeline-level
cache flag and per-step configurations reflect the merged run
configuration. -/
def compile (pdef : PipelineDefinition) (stack : Stack)
    (run_config : PipelineRunConfiguration) : Except CompileError Deployment :=
  match validate_stack pdef stack with
  | .error e => .error e
  | .ok () =>
    match validate_upstream pdef with
    | .error e => .error e
    | .ok () =>
      .ok
        { pipeline_enable_cache :=
            match run_config.enable_cache with
            | some b => b
            | none => pdef.enable_cache.getD true
          run_name := run_config.run_name
          extra := run_config.extra
          steps := pdef.steps.map (fun s => compile_step s pdef run_config) }

/-- The sequential reference orchestrator executes the compiled steps in
declaration order; only the order of step names matters to the verified
claims. -/
def execute_steps (dep : Deployment) : List String :=
  dep.steps.map (fun s => s.config.name)

/-- Modelled from the spec: `BasePipeline.run(...)` — merges the in-code
defaults, the configuration file supplied at invocation and the run-time
explicit overrides in ascending precedence, compiles the pipeline against
the active stack, and (only) when compilation succeeds executes the steps
of the deployment; a compile or stack-validation error is surfaced before
any step executes. -/
def run_pipeline (pdef : PipelineDefinition) (stack : Stack)
    (code_defaults file_config runtime_overrides : PipelineRunConfiguration) :
    Except CompileError (Deployment × List String) :=
  match compile pdef stack
      (three_tier_run_configuration code_defaults file_config
        runtime_overrides) with
  | .error e => .error e
  | .ok dep => .ok (dep, execute_steps dep)

/- ### Pipeline-run persistence (translated from
`src/zenml/zen_stores/schemas/pipeline_run_schemas.py`) -/

/-- The stored pipeline-run row (`PipelineRunSchema`).  JSON-valued columns
are carried as their serialized text exactly as the schema stores them. -/
structure PipelineRunSchema where
  id : Nat
  name : String
  created : Nat
  updated : Nat
  stack_id : Option Nat
  pipeline_id : Option Nat
  schedule_id : Option Nat
  user_id : Option Nat
  project_id : Nat
  orchestrator_run_id : Option String
  enable_cache : Option Bool
  start_time : Option Nat
  end_time : Option Nat
  status : ExecutionStatus
  pipeline_configuration : String
  num_steps : Option Nat
  zenml_version : String
  client_environment : Option String
  orchestrator_environment : Option String
  git_sha : Option String
deriving DecidableEq, Repr

/-- The update payload (`PipelineRunUpdateModel`): an optional new status
and the end time to record with it. -/
structure PipelineRunUpdateModel where
  status : Option ExecutionStatus := none
  end_time : Option Nat := none
deriving DecidableEq, Repr

/-- Translated from `PipelineRunSchema.update`: when the update carries a
status, the stored status and end time are overwritten from the update;
in every case the last-updated timestamp is set to the current time
(`datetime.utcnow()`, passed here as `now`) and nothing else changes. -/
def PipelineRunSchema.update (s : PipelineRunSchema)
    (run_update : PipelineRunUpdateModel) (now : Nat) : PipelineRunSchema :=
  let s1 :=
    match run_update.status with
    | some st => { s with status := st, end_time := run_update.end_time }
    | none => s
  { s1 with updated := now }

/- ### Helper lemmas: the key order is linear and sorting is canonical -/

theorem strLeB_total : ∀ x y : List Char, strLeB x y = true ∨ strLeB y x = true
  | [], _ => Or.inl rfl
  | _ :: _, [] => Or.inr rfl
  | c :: cs, d :: ds => by
    simp only [strLeB]
    rcases Nat.lt_trichotomy c.toNat d.toNat with h | h | h
    · left; simp [h]
    · have h1 : ¬c.toNat < d.toNat := by omega
      have h2 : ¬d.toNat < c.toNat := by omega
      simpa [h1, h2, h] using strLeB_total cs ds
    · right; simp [h]

theorem strLeB_trans :
    ∀ x y z : List Char,
      strLeB x y = true → strLeB y z = true → strLeB x z = true
  | [], _, _ => fun _ _ => rfl
  | _ :: _, [], _ => fun h _ => by simp [strLeB] at h
  | _ :: _, _ :: _, [] => fun _ h => by simp [strLeB] at h
  | c :: cs, d :: ds, e :: es => fun h1 h2 => by
    simp only [strLeB] at h1 h2 ⊢
    rcases Nat.lt_trichotomy c.toNat d.toNat with hcd | hcd | hcd <;>
      rcases Nat.lt_trichotomy d.toNat e.toNat with hde | hde | hde
    · simp [show c.toNat < e.toNat by omega]
    · simp [show c.toNat < e.toNat by omega]
    · simp [show ¬d.toNat < e.toNat by omega,
        show e.toNat < d.toNat by omega] at h2
    · simp [show c.toNat < e.toNat by omega]
    · simp only [if_neg (show ¬c.toNat < d.toNat by omega),
        if_neg (show ¬d.toNat < c.toNat by omega)] at h1
      simp only [if_neg (show ¬d.toNat < e.toNat by omega),
        if_neg (show ¬e.toNat < d.toNat by omega)] at h2
      simp only [if_neg (show ¬c.toNat < e.toNat by omega),
        if_neg (show ¬e.toNat < c.toNat by omega)]
      exact strLeB_trans cs ds es h1 h2
    · simp [show ¬d.toNat < e.toNat by omega,
        show e.toNat < d.toNat by omega] at h2
    · simp [show ¬c.toNat < d.toNat by omega,
        show d.toNat < c.toNat by omega] at h1
    · simp [show ¬c.toNat < d.toNat by omega,
        show d.toNat < c.toNat by omega] at h1
    · simp [show ¬c.toNat < d.toNat by omega,
        show d.toNat < c.toNat by omega] at h1

theorem strLeB_antisymm :
    ∀ x y : List Char, strLeB x y = true → strLeB y x = true → x = y
  | [], [] => fun _ _ => rfl
  | [], _ :: _ => fun _ h => by simp [strLeB] at h
  | _ :: _, [] => fun h _ => by simp [strLeB] at h
  | c :: cs, d :: ds => fun h1 h2 => by
    simp only [strLeB] at h1 h2
    rcases Nat.lt_trichotomy c.toNat d.toNat with hcd | hcd | hcd
    · simp [show ¬d.toNat < c.toNat by omega,
        show c.toNat < d.toNat by omega] at h2
    · simp only [if_neg (show ¬c.toNat < d.toNat by omega),
        if_neg (show ¬d.toNat < c.toNat by omega)] at h1 h2
      have hchar : c = d := by
        apply Char.eq_of_val_eq
        apply UInt32.eq_of_val_eq
        apply Fin.eq_of_val_eq
        exact hcd
      rw [hchar, strLeB_antisymm cs ds h1 h2]
    · simp [show ¬c.toNat < d.toNat by omega,
        show d.toNat < c.toNat by omega] at h1

theorem string_eq_of_data {s t : String} (h : s.data = t.data) : s = t := by
  cases s; cases t; exact congrArg String.mk h

theorem keyLE_total {V : Type} : ∀ a b : String × V, keyLE a b ∨ keyLE b a :=
  fun a b => strLeB_total a.1.data b.1.data

theorem keyLE_trans {V : Type} {a b c : String × V} (h1 : keyLE a b)
    (h2 : keyLE b c) : keyLE a c :=
  strLeB_trans a.1.data b.1.data c.1.data h1 h2

theorem keyLT_asymm {V : Type} {a b : String × V} (h1 : keyLT a b)
    (h2 : keyLT b a) : False := by
  rw [keyLT] at h1 h2
  rw [h1.1] at h2
  exact Bool.true_eq_false.mp h2.2

theorem keyLT_of_keyLE_ne {V : Type} {a b : String × V} (h : keyLE a b)
    (hne : a.1 ≠ b.1) : keyLT a b := by
  refine ⟨h, ?_⟩
  cases hba : strLeB b.1.data a.1.data with
  | false => rfl
  | true =>
    exact absurd (string_eq_of_data (strLeB_antisymm a.1.data b.1.data h hba))
      hne

theorem sortByKey_perm {V : Type} (l : List (String × V)) :
    (sortByKey l).Perm l :=
  List.perm_insertionSort keyLE l

theorem sortByKey_sorted {V : Type} (l : List (String × V)) :
    List.Sorted keyLE (sortByKey l) := by
  haveI : IsTotal (String × V) keyLE := ⟨keyLE_total⟩
  haveI : IsTrans (String × V) keyLE := ⟨fun _ _ _ => keyLE_trans⟩
  exact List.sorted_insertionSort keyLE l

theorem sorted_keyLT_of_keyLE {V : Type} {l : List (String × V)}
    (hs : List.Sorted keyLE l) (hnd : (l.map Prod.fst).Nodup) :
    List.Sorted keyLT l := by
  have hne : List.Pairwise (fun a b : String × V => a.1 ≠ b.1) l :=
    List.pairwise_map.mp hnd
  exact (hs.and hne).imp fun h => keyLT_of_keyLE_ne h.1 h.2

theorem sortByKey_eq_of_perm {V : Type} {l₁ l₂ : List (String × V)}
    (h : l₁.Perm l₂) (hnd : (l₁.map Prod.fst).Nodup) :
    sortByKey l₁ = sortByKey l₂ := by
  haveI : IsAntisymm (String × V) keyLT :=
    ⟨fun _ _ h1 h2 => (keyLT_asymm h1 h2).elim⟩
  have hnd₂ : (l₂.map Prod.fst).Nodup := (h.map Prod.fst).nodup hnd
  have hperm : (sortByKey l₁).Perm (sortByKey l₂) :=
    ((sortByKey_perm l₁).trans h).trans (sortByKey_perm l₂).symm
  exact List.eq_of_perm_of_sorted hperm
    (sorted_keyLT_of_keyLE (sortByKey_sorted l₁)
      (((sortByKey_perm l₁).symm.map Prod.fst).nodup hnd))
    (sorted_keyLT_of_keyLE (sortByKey_sorted l₂)
      (((sortByKey_perm l₂).symm.map Prod.fst).nodup hnd₂))

theorem perm_of_sortByKey_eq {V : Type} {l₁ l₂ : List (String × V)}
    (h : sortByKey l₁ = sortByKey l₂) : l₁.Perm l₂ :=
  ((sortByKey_perm l₁).symm.trans (h ▸ List.Perm.refl (sortByKey l₁))).trans
    (sortByKey_perm l₂)

/- ### Claim theorems -/

/-- C1: The fingerprint engine is deterministic: for every step
configuration, input-artifact-id mapping, artifact store (id and path) and
project id, two calls to `generate_cache_key` with identical inputs return
the same key, regardless of the construction order of dict-valued
components such as the parameters and the input artifact map (here:
whenever the dict-valued components of the two calls are permutations of
each other, with the well-formedness assumption that dict keys are
unique). -/
theorem generate_cache_key_deterministic
    (s₁ s₂ : Step) (in₁ in₂ : List (String × Nat))
    (artifact_store : ArtifactStoreInfo) (project_id : Nat)
    (hspec : s₁.spec = s₂.spec)
    (hparams : s₁.config.parameters.Perm s₂.config.parameters)
    (houts : s₁.config.outputs.Perm s₂.config.outputs)
    (hcaching : s₁.config.caching_parameters.Perm s₂.config.caching_parameters)
    (hin : in₁.Perm in₂)
    (hnd₁ : (s₁.config.parameters.map Prod.fst).Nodup)
    (hnd₂ : (s₁.config.outputs.map Prod.fst).Nodup)
    (hnd₃ : (s₁.config.caching_parameters.map Prod.fst).Nodup)
    (hnd₄ : (in₁.map Prod.fst).Nodup) :
    generate_cache_key s₁ in₁ artifact_store project_id =
      generate_cache_key s₂ in₂ artifact_store project_id := by
  simp only [generate_cache_key, hspec,
    sortByKey_eq_of_perm hparams hnd₁, sortByKey_eq_of_perm houts hnd₂,
    sortByKey_eq_of_perm hcaching hnd₃, sortByKey_eq_of_perm hin hnd₄]

/-- Witness for C1: two calls whose parameter dict and input-artifact map
are built in opposite orders produce the same key. -/
theorem generate_cache_key_deterministic_witness :
    generate_cache_key
      { spec := { source := "module.step_class", upstream_steps := [] }
        config := { name := "s", enable_cache := true
                    parameters := [("a", "1"), ("b", "2")]
                    caching_parameters := [("k", "v")]
                    outputs := [("o1", ⟨"int", "mat"⟩)] } }
      [("i1", 5), ("i2", 6)] ⟨3, "p"⟩ 7 =
    generate_cache_key
      { spec := { source := "module.step_class", upstream_steps := [] }
        config := { name := "s", enable_cache := true
                    parameters := [("b", "2"), ("a", "1")]
                    caching_parameters := [("k", "v")]
                    outputs := [("o1", ⟨"int", "mat"⟩)] } }
      [("i2", 6), ("i1", 5)] ⟨3, "p"⟩ 7 :=
  generate_cache_key_deterministic _ _ _ _ _ _ rfl (by decide) (by decide)
    (by decide) (by decide) (by decide) (by decide) (by decide) (by decide)

/-- C2: The fingerprint engine is sensitive to exactly the declared
inputs: under the well-formedness assumption that the first call's dict
keys are unique, two keys are equal precisely when the project id, the
artifact store id and path, the step source, and the parameter, output,
input-artifact and caching-parameter dicts (as dicts, i.e. up to entry
order) all agree — so changing any one of them changes the key.  Run id,
wall-clock time and random values are not arguments of the engine, so they
cannot influence the key. -/
theorem generate_cache_key_sensitivity
    (s₁ s₂ : Step) (in₁ in₂ : List (String × Nat))
    (st₁ st₂ : ArtifactStoreInfo) (p₁ p₂ : Nat)
    (hnd₁ : (s₁.config.parameters.map Prod.fst).Nodup)
    (hnd₂ : (s₁.config.outputs.map Prod.fst).Nodup)
    (hnd₃ : (s₁.config.caching_parameters.map Prod.fst).Nodup)
    (hnd₄ : (in₁.map Prod.fst).Nodup) :
    generate_cache_key s₁ in₁ st₁ p₁ = generate_cache_key s₂ in₂ st₂ p₂ ↔
      (p₁ = p₂ ∧ st₁.id = st₂.id ∧ st₁.path = st₂.path ∧
       s₁.spec.source = s₂.spec.source ∧
       s₁.config.parameters.Perm s₂.config.parameters ∧
       s₁.config.outputs.Perm s₂.config.outputs ∧
       in₁.Perm in₂ ∧
       s₁.config.caching_parameters.Perm s₂.config.caching_parameters) := by
  constructor
  · intro h
    simp only [generate_cache_key, CacheKey.mk.injEq] at h
    obtain ⟨h1, h2, h3, h4, h5, h6, h7, h8⟩ := h
    exact ⟨h1, h2, h3, h4, perm_of_sortByKey_eq h5, perm_of_sortByKey_eq h6,
      perm_of_sortByKey_eq h7, perm_of_sortByKey_eq h8⟩
  · rintro ⟨h1, h2, h3, h4, h5, h6, h7, h8⟩
    simp only [generate_cache_key, CacheKey.mk.injEq]
    exact ⟨h1, h2, h3, h4, sortByKey_eq_of_perm h5 hnd₁,
      sortByKey_eq_of_perm h6 hnd₂, sortByKey_eq_of_perm h7 hnd₄,
      sortByKey_eq_of_perm h8 hnd₃⟩

/-- Witness for C2: the sensitivity equivalence instantiated at two calls
that differ only in the project id (7 versus 8). -/
theorem generate_cache_key_sensitivity_witness :
    (generate_cache_key
        { spec := { source := "module.step_class", upstream_steps := [] }
          config := { name := "s", enable_cache := true
                      parameters := [("a", "1")] } }
        [("i1", 5)] ⟨3, "p"⟩ 7 =
      generate_cache_key
        { spec := { source := "module.step_class", upstream_steps := [] }
          config := { name := "s", enable_cache := true
                      parameters := [("a", "1")] } }
        [("i1", 5)] ⟨3, "p"⟩ 8 ↔
      (7 = 8 ∧ (3 : Nat) = 3 ∧ "p" = "p" ∧
       "module.step_class" = "module.step_class" ∧
       List.Perm [("a", "1")] [("a", "1")] ∧
       List.Perm ([] : List (String × ArtifactConfiguration)) [] ∧
       List.Perm [("i1", 5)] [("i1", 5)] ∧
       List.Perm ([] : List (String × String)) [])) :=
  generate_cache_key_sensitivity _ _ _ _ _ _ _ _ (by decide) (by decide)
    (by decide) (by decide)

theorem take_one_head {α : Type} (l : List α) : (l.take 1).head? = l.head? := by
  cases l <;> rfl

theorem sorted_createdGE (l : List StepRunRecord) :
    List.Sorted createdGE (List.insertionSort createdGE l) := by
  haveI : IsTotal StepRunRecord createdGE := ⟨fun a b => Nat.le_total b.created a.created⟩
  haveI : IsTrans StepRunRecord createdGE :=
    ⟨fun _ _ _ h1 h2 => Nat.le_trans h2 h1⟩
  exact List.sorted_insertionSort createdGE l

/-- C3: `get_cached_step_run` returns `none` exactly when the store holds
no step run with the given cache key and status COMPLETED (no error is
involved — `none` is an ordinary value), and whenever it returns a
candidate, that candidate comes from the store, carries the requested
cache key, has status COMPLETED — hence neither CACHED nor FAILED — and
was created no earlier than every other matching step run in the store
(the query filters on the key and COMPLETED, sorts descending by creation
time and takes the single first page entry). -/
theorem get_cached_step_run_characterization (store : List StepRunRecord)
    (key : String) :
    (get_cached_step_run store key = none ↔
      ∀ r ∈ store,
        ¬(r.cache_key = key ∧ r.status = ExecutionStatus.completed)) ∧
    (∀ r, get_cached_step_run store key = some r →
      r ∈ store ∧ r.cache_key = key ∧
      r.status = ExecutionStatus.completed ∧
      r.status ≠ ExecutionStatus.cached ∧ r.status ≠ ExecutionStatus.failed ∧
      ∀ r' ∈ store, r'.cache_key = key →
        r'.status = ExecutionStatus.completed → r'.created ≤ r.created) := by
  have hmatch : ∀ r : StepRunRecord,
      matches_filter
        { cache_key := some key
          status := some ExecutionStatus.completed
          descending_by_created := true
          size := some 1 } r =
        (r.cache_key == key && r.status == ExecutionStatus.completed) :=
    fun r => rfl
  set f : StepRunFilter :=
    { cache_key := some key
      status := some ExecutionStatus.completed
      descending_by_created := true
      size := some 1 } with hf
  have hget : get_cached_step_run store key =
      (List.insertionSort createdGE (store.filter (matches_filter f))).head? := by
    rw [get_cached_step_run, list_run_steps]
    simp only [← hf]
    exact take_one_head _
  set filtered := store.filter (matches_filter f) with hfiltered
  have hperm : (List.insertionSort createdGE filtered).Perm filtered :=
    List.perm_insertionSort createdGE filtered
  constructor
  · rw [hget]
    constructor
    · intro h r hr hcond
      have hfil : filtered = [] := by
        cases hsort : List.insertionSort createdGE filtered with
        | nil => exact (hsort ▸ hperm).symm.eq_nil
        | cons a t => rw [hsort] at h; exact absurd h (by simp)
      have : r ∈ filtered := by
        rw [hfiltered, List.mem_filter, hmatch]
        refine ⟨hr, ?_⟩
        simp [hcond.1, hcond.2]
      rw [hfil] at this
      exact absurd this (List.not_mem_nil r)
    · intro h
      have hfil : filtered = [] := by
        rw [hfiltered, List.filter_eq_nil_iff]
        intro r hr
        rw [hmatch]
        intro hc
        have h1 : r.cache_key = key := by
          have := (Bool.and_eq_true _ _).mp hc
          exact eq_of_beq this.1
        have h2 : r.status = ExecutionStatus.completed := by
          have := (Bool.and_eq_true _ _).mp hc
          exact eq_of_beq this.2
        exact h r hr ⟨h1, h2⟩
      rw [hfil]
      rfl
  · intro r hr
    rw [hget] at hr
    cases hsort : List.insertionSort createdGE filtered with
    | nil => rw [hsort] at hr; exact absurd hr (by simp)
    | cons a t =>
      rw [hsort] at hr
      have har : a = r := by simpa using hr
      subst har
      have hmem : a ∈ filtered := (hsort ▸ hperm).mem_iff.mp (by simp)
      rw [hfiltered, List.mem_filter, hmatch] at hmem
      have h1 : a.cache_key = key := by
        have := (Bool.and_eq_true _ _).mp hmem.2
        exact eq_of_beq this.1
      have h2 : a.status = ExecutionStatus.completed := by
        have := (Bool.and_eq_true _ _).mp hmem.2
        exact eq_of_beq this.2
      have hc1 : a.status ≠ ExecutionStatus.cached := by
        rw [h2]; intro hc; cases hc
      have hc2 : a.status ≠ ExecutionStatus.failed := by
        rw [h2]; intro hc; cases hc
      refine ⟨hmem.1, h1, h2, hc1, hc2, ?_⟩
      intro r' hr' hk' hs0
      have hmem' : r' ∈ List.insertionSort createdGE filtered := by
        rw [hperm.mem_iff, hfiltered, List.mem_filter, hmatch]
        refine ⟨hr', ?_⟩
        simp [hk', hs0]
      rw [hsort] at hmem'
      rcases List.mem_cons.mp hmem' with heq | hmemt
      · rw [heq]
      · have hsorted := sorted_createdGE filtered
        rw [hsort] at hsorted
        exact List.rel_of_sorted_cons hsorted r' hmemt

/-- Witness for C3: on a store holding two COMPLETED runs with cache key
"k" (created at 3 and at 5), the returned candidate — the one created at
5 — is in the store, carries the key and is COMPLETED. -/
theorem get_cached_step_run_characterization_witness :
    (⟨2, 1, "s", ExecutionStatus.completed, "k", 5, []⟩ : StepRunRecord) ∈
      ([⟨1, 1, "s", ExecutionStatus.completed, "k", 3, []⟩,
        ⟨2, 1, "s", ExecutionStatus.completed, "k", 5, []⟩] :
        List StepRunRecord) ∧
    (⟨2, 1, "s", ExecutionStatus.completed, "k", 5, []⟩ :
      StepRunRecord).cache_key = "k" ∧
    (⟨2, 1, "s", ExecutionStatus.completed, "k", 5, []⟩ :
      StepRunRecord).status = ExecutionStatus.completed := by
  have h := (get_cached_step_run_characterization
    [⟨1, 1, "s", ExecutionStatus.completed, "k", 3, []⟩,
     ⟨2, 1, "s", ExecutionStatus.completed, "k", 5, []⟩] "k").2
    ⟨2, 1, "s", ExecutionStatus.completed, "k", 5, []⟩ (by decide)
  exact ⟨h.1, h.2.1, h.2.2.1⟩

theorem run_pipeline_ok_config (pdef : PipelineDefinition) (stack : Stack)
    (cd fc ro : PipelineRunConfiguration) (dep : Deployment)
    (log : List String)
    (h : run_pipeline pdef stack cd fc ro = .ok (dep, log)) :
    dep.run_name = (three_tier_run_configuration cd fc ro).run_name ∧
    dep.extra = (three_tier_run_configuration cd fc ro).extra ∧
    dep.pipeline_enable_cache =
      (match (three_tier_run_configuration cd fc ro).enable_cache with
        | some b => b
        | none => pdef.enable_cache.getD true) ∧
    dep.steps = pdef.steps.map
      (fun s => compile_step s pdef (three_tier_run_configuration cd fc ro)) := by
  rw [run_pipeline] at h
  cases hcomp : compile pdef stack (three_tier_run_configuration cd fc ro) with
  | error e => rw [hcomp] at h; cases h
  | ok d =>
    rw [hcomp] at h
    injection h with hpair
    have hd : d = dep := (Prod.mk.injEq _ _ _ _ ▸ hpair).1
    subst hd
    rw [compile] at hcomp
    split at hcomp
    · cases hcomp
    · split at hcomp
      · cases hcomp
      · injection hcomp with hdep
        rw [← hdep]
        exact ⟨rfl, rfl, rfl, rfl⟩

/-- C4: Cache-enable precedence: `is_cache_enabled` returns the step-level
flag whenever it is explicitly set, falls back to the pipeline-level flag
when the step-level flag is unset, and defaults to `true` when both are
unset; and for every pipeline run invoked with an explicit run-level
`enable_cache` override, the compiled deployment carries that override on
the pipeline and on every step, regardless of the step-level and
pipeline-level flags. -/
theorem cache_enable_precedence :
    (∀ (b : Bool) (p : Option Bool), is_cache_enabled (some b) p = b) ∧
    (∀ b : Bool, is_cache_enabled none (some b) = b) ∧
    is_cache_enabled none none = true ∧
    (∀ (pdef : PipelineDefinition) (stack : Stack)
        (cd fc ro : PipelineRunConfiguration) (b : Bool) (dep : Deployment)
        (log : List String),
      ro.enable_cache = some b →
      run_pipeline pdef stack cd fc ro = .ok (dep, log) →
      dep.pipeline_enable_cache = b ∧
        ∀ st ∈ dep.steps, st.config.enable_cache = b) := by
  refine ⟨fun _ _ => rfl, fun _ => rfl, rfl, ?_⟩
  intro pdef stack cd fc ro b dep log hro hrun
  have hrc : (three_tier_run_configuration cd fc ro).enable_cache = some b := by
    simp [three_tier_run_configuration, merge_run_configuration, opt_or, hro]
  obtain ⟨_, _, hpc, hsteps⟩ :=
    run_pipeline_ok_config pdef stack cd fc ro dep log hrun
  constructor
  · rw [hpc, hrc]
  · intro st hst
    rw [hsteps] at hst
    obtain ⟨s, _, rfl⟩ := List.mem_map.mp hst
    simp [compile_step, hrc]

/-- Witness for C4: the explicit step flag wins over the pipeline flag,
and a run invoked with `enable_cache := true` over a cache-disabled
pipeline of one cache-disabled step compiles to a deployment whose
pipeline-level flag is `true`. -/
theorem cache_enable_precedence_witness :
    is_cache_enabled (some true) (some false) = true ∧
    ({ pipeline_enable_cache := true, run_name := none, extra := []
       steps := [{ spec := { source := "m.s1", upstream_steps := [] }
                   config := { name := "s1", enable_cache := true } }] } :
      Deployment).pipeline_enable_cache = true := by
  refine ⟨cache_enable_precedence.1 true (some false), ?_⟩
  exact (cache_enable_precedence.2.2.2
    { name := "p", enable_cache := some false
      steps := [{ name := "s1", source := "m.s1"
                  enable_cache := some false }] }
    {} {} {} { enable_cache := some true } true
    { pipeline_enable_cache := true, run_name := none, extra := []
      steps := [{ spec := { source := "m.s1", upstream_steps := [] }
                  config := { name := "s1", enable_cache := true } }] }
    ["s1"] rfl rfl).1

theorem lookup_append {V : Type} (k : String) (l₁ l₂ : List (String × V)) :
    (l₁ ++ l₂).lookup k = opt_or (l₁.lookup k) (l₂.lookup k) := by
  induction l₁ with
  | nil => rfl
  | cons p rest ih =>
    obtain ⟨a, b⟩ := p
    by_cases h : k = a
    · simp [List.lookup, h, opt_or]
    · have hb : (k == a) = false := by simpa using h
      simp [List.lookup, hb, ih]

/-- C7: Compiler configuration merge precedence: scalar fields of the
merged run configuration come from the highest-precedence source that sets
them, in the order run-time explicit overrides > run-configuration
file/object > in-code defaults; the dict-valued `extra` setting is merged
key-by-key across the three sources with the same precedence per key; a
config-yaml's step parameters are merged key-by-key with the in-code value
winning unless full replacement (`overwrite_step_parameters`) is
requested, in which case the yaml value wins per key; and a successfully
compiled deployment carries exactly the merged scalar and dict values. -/
theorem configuration_merge_precedence
    (cd fc ro : PipelineRunConfiguration) (k : String)
    (code_params yaml_params : List (String × String)) :
    ((three_tier_run_configuration cd fc ro).run_name =
      opt_or ro.run_name (opt_or fc.run_name cd.run_name)) ∧
    ((three_tier_run_configuration cd fc ro).enable_cache =
      opt_or ro.enable_cache (opt_or fc.enable_cache cd.enable_cache)) ∧
    ((three_tier_run_configuration cd fc ro).extra.lookup k =
      opt_or (ro.extra.lookup k)
        (opt_or (fc.extra.lookup k) (cd.extra.lookup k))) ∧
    ((apply_config_parameters code_params yaml_params false).lookup k =
      opt_or (code_params.lookup k) (yaml_params.lookup k)) ∧
    ((apply_config_parameters code_params yaml_params true).lookup k =
      opt_or (yaml_params.lookup k) (code_params.lookup k)) ∧
    (∀ (pdef : PipelineDefinition) (stack : Stack) (dep : Deployment)
        (log : List String),
      run_pipeline pdef stack cd fc ro = .ok (dep, log) →
      dep.run_name = opt_or ro.run_name (opt_or fc.run_name cd.run_name) ∧
      dep.extra.lookup k =
        opt_or (ro.extra.lookup k)
          (opt_or (fc.extra.lookup k) (cd.extra.lookup k))) := by
  have hextra : (three_tier_run_configuration cd fc ro).extra.lookup k =
      opt_or (ro.extra.lookup k)
        (opt_or (fc.extra.lookup k) (cd.extra.lookup k)) := by
    show ((ro.extra ++ (fc.extra ++ cd.extra)).lookup k) = _
    rw [lookup_append, lookup_append]
  refine ⟨rfl, rfl, hextra, ?_, ?_, ?_⟩
  · show ((code_params ++ yaml_params).lookup k) = _
    rw [lookup_append]
  · show ((yaml_params ++ code_params).lookup k) = _
    rw [lookup_append]
  · intro pdef stack dep log hrun
    obtain ⟨hrn, hex, _, _⟩ :=
      run_pipeline_ok_config pdef stack cd fc ro dep log hrun
    exact ⟨hrn, by rw [hex]; exact hextra⟩

/-- Witness for C7: the run-configuration merge of the repository's
"run configuration from code and file" test — an in-code run name
overrides the file's, the file's cache flag survives, and the two `extra`
dicts merge — carried onto the compiled deployment. -/
theorem configuration_merge_precedence_witness :
    ({ pipeline_enable_cache := false, run_name := some "run_name_in_code"
       extra := [("new_key", "new_value"), ("key", "value")]
       steps := [{ spec := { source := "m.s1", upstream_steps := [] }
                   config := { name := "s1", enable_cache := false } }] } :
        Deployment).run_name =
      opt_or (some "run_name_in_code") (opt_or (some "run_name_in_file") none) ∧
    ({ pipeline_enable_cache := false, run_name := some "run_name_in_code"
       extra := [("new_key", "new_value"), ("key", "value")]
       steps := [{ spec := { source := "m.s1", upstream_steps := [] }
                   config := { name := "s1", enable_cache := false } }] } :
        Deployment).extra.lookup "key" =
      opt_or (List.lookup "key" [("new_key", "new_value")])
        (opt_or (List.lookup "key" [("key", "value")])
          (List.lookup "key" ([] : List (String × String)))) :=
  (configuration_merge_precedence {} 
    { run_name := some "run_name_in_file", enable_cache := some false
      extra := [("key", "value")] }
    { run_name := some "run_name_in_code"
      extra := [("new_key", "new_value")] } "key" [] []).2.2.2.2.2
    { name := "p", steps := [{ name := "s1", source := "m.s1" }] }
    {}
    { pipeline_enable_cache := false, run_name := some "run_name_in_code"
      extra := [("new_key", "new_value"), ("key", "value")]
      steps := [{ spec := { source := "m.s1", upstream_steps := [] }
                  config := { name := "s1", enable_cache := false } }] }
    ["s1"] rfl

/-- C8: Stack validation: for every pipeline containing a step whose
configuration names a step operator, running the pipeline on a stack that
has no step operator component surfaces a stack-validation error — the
result of `run_pipeline` is that error, so the run never starts and no
step executes. -/
theorem missing_step_operator_fails_stack_validation
    (pdef : PipelineDefinition) (stack : Stack)
    (cd fc ro : PipelineRunConfiguration)
    (hstep : ∃ s ∈ pdef.steps, s.step_operator.isSome)
    (hstack : stack.step_operator = none) :
    ∃ step_name operator,
      run_pipeline pdef stack cd fc ro =
        .error (.stackValidation step_name operator) := by
  have hpred : ∀ s : StepDefinition,
      (match s.step_operator with
        | some op => !(stack.step_operator == some op)
        | none => false) = s.step_operator.isSome := by
    intro s
    rw [hstack]
    cases s.step_operator <;> rfl
  have hsome : (pdef.steps.find? (fun s =>
      match s.step_operator with
      | some op => !(stack.step_operator == some op)
      | none => false)).isSome := by
    rw [List.find?_isSome]
    obtain ⟨s, hs, hop⟩ := hstep
    exact ⟨s, hs, by rw [hpred]; exact hop⟩
  obtain ⟨s, hfind⟩ := Option.isSome_iff_exists.mp hsome
  refine ⟨s.name, s.step_operator.getD "", ?_⟩
  rw [run_pipeline, compile, validate_stack, hfind]

/-- Witness for C8: a one-step pipeline requiring the "azureml" step
operator, run on a stack with no step operator component, is rejected
with a stack-validation error. -/
theorem missing_step_operator_fails_stack_validation_witness :
    run_pipeline
        { name := "p"
          steps := [{ name := "needs_op", source := "m.s"
                      step_operator := some "azureml" }] }
        { step_operator := none } {} {} {} =
      .error (.stackValidation "needs_op" "azureml") := by
  obtain ⟨sn, op, h⟩ := missing_step_operator_fails_stack_validation
    { name := "p"
      steps := [{ name := "needs_op", source := "m.s"
                  step_operator := some "azureml" }] }
    { step_operator := none } {} {} {}
    ⟨{ name := "needs_op", source := "m.s", step_operator := some "azureml" },
      by decide, rfl⟩ rfl
  have hc : run_pipeline
      { name := "p"
        steps := [{ name := "needs_op", source := "m.s"
                    step_operator := some "azureml" }] }
      { step_operator := none } {} {} {} =
      .error (.stackValidation "needs_op" "azureml") := rfl
  exact hc

/-- C9: Two `StepSpec` values compare equal under `specEq` if and only if
their `upstream_steps` lists are equal and their sources are identical or
one is a string-suffix of the other; the comparison is symmetric, and it
is not transitive over arbitrary sources ("a.x" matches "x" and "x"
matches "b.x", yet "a.x" does not match "b.x"). -/
theorem stepSpec_eq_characterization :
    (∀ a b : StepSpec,
      StepSpec.specEq a b = true ↔
        (a.upstream_steps = b.upstream_steps ∧
          (a.source = b.source ∨ b.source.data <:+ a.source.data ∨
            a.source.data <:+ b.source.data))) ∧
    (∀ a b : StepSpec, StepSpec.specEq a b = StepSpec.specEq b a) ∧
    (StepSpec.specEq ⟨"a.x", []⟩ ⟨"x", []⟩ = true ∧
      StepSpec.specEq ⟨"x", []⟩ ⟨"b.x", []⟩ = true ∧
      StepSpec.specEq ⟨"a.x", []⟩ ⟨"b.x", []⟩ = false) := by
  have hchar : ∀ a b : StepSpec,
      StepSpec.specEq a b = true ↔
        (a.upstream_steps = b.upstream_steps ∧
          (a.source = b.source ∨ b.source.data <:+ a.source.data ∨
            a.source.data <:+ b.source.data)) := by
    intro a b
    rw [StepSpec.specEq]
    split_ifs with hu hs hba hab
    · simp [hu, hs]
    · simp only [decide_eq_true_eq] at hba
      simp [hu, hba]
    · simp only [decide_eq_true_eq] at hab
      simp [hu, hab]
    · simp only [decide_eq_true_eq] at hba hab
      simp [hu, hs, hba, hab]
    · simp [hu]
  refine ⟨hchar, ?_, by decide, by decide, by decide⟩
  intro a b
  cases ha : StepSpec.specEq a b <;> cases hb : StepSpec.specEq b a <;>
    try rfl
  · have hc := (hchar b a).mp hb
    have : StepSpec.specEq a b = true := by
      rw [hchar]
      refine ⟨hc.1.symm, ?_⟩
      rcases hc.2 with h | h | h
      · exact Or.inl h.symm
      · exact Or.inr (Or.inr h)
      · exact Or.inr (Or.inl h)
    rw [ha] at this
    cases this
  · have hc := (hchar a b).mp ha
    have : StepSpec.specEq b a = true := by
      rw [hchar]
      refine ⟨hc.1.symm, ?_⟩
      rcases hc.2 with h | h | h
      · exact Or.inl h.symm
      · exact Or.inr (Or.inr h)
      · exact Or.inr (Or.inl h)
    rw [hb] at this
    cases this

/-- C10: Applying an update to a stored pipeline run changes only its
status and end time (plus the last-updated timestamp, set to the update
time), leaving every other persisted field — name, orchestrator run id,
pipeline configuration, step count, start time, version stamps and all
foreign-key references — unchanged; and status and end time are written
only when the update carries a status: an update without a status leaves
both unchanged, while an update carrying one overwrites both from the
update. -/
theorem pipeline_run_update_frame (s : PipelineRunSchema)
    (u : PipelineRunUpdateModel) (now : Nat) (st : ExecutionStatus)
    (e : Option Nat) :
    ((s.update u now).id = s.id ∧
      (s.update u now).name = s.name ∧
      (s.update u now).created = s.created ∧
      (s.update u now).stack_id = s.stack_id ∧
      (s.update u now).pipeline_id = s.pipeline_id ∧
      (s.update u now).schedule_id = s.schedule_id ∧
      (s.update u now).user_id = s.user_id ∧
      (s.update u now).project_id = s.project_id ∧
      (s.update u now).orchestrator_run_id = s.orchestrator_run_id ∧
      (s.update u now).enable_cache = s.enable_cache ∧
      (s.update u now).start_time = s.start_time ∧
      (s.update u now).pipeline_configuration = s.pipeline_configuration ∧
      (s.update u now).num_steps = s.num_steps ∧
      (s.update u now).zenml_version = s.zenml_version ∧
      (s.update u now).client_environment = s.client_environment ∧
      (s.update u now).orchestrator_environment = s.orchestrator_environment ∧
      (s.update u now).git_sha = s.git_sha ∧
      (s.update u now).updated = now) ∧
    ((s.update { status := none, end_time := e } now).status = s.status ∧
      (s.update { status := none, end_time := e } now).end_time =
        s.end_time) ∧
    ((s.update { status := some st, end_time := e } now).status = st ∧
      (s.update { status := some st, end_time := e } now).end_time = e) := by
  obtain ⟨us, ue⟩ := u
  cases us <;>
    exact ⟨⟨rfl, rfl, rfl, rfl, rfl, rfl, rfl, rfl, rfl, rfl, rfl, rfl, rfl,
      rfl, rfl, rfl, rfl, rfl⟩, ⟨rfl, rfl⟩, ⟨rfl, rfl⟩⟩

theorem resolve_inputs_list_ok (store : List StepRunRecord) (run_id : Nat) :
    ∀ inputs : List (String × InputSpec),
      (∀ p ∈ inputs, ∃ sr art,
        firstUpstream store run_id p.2.step_name = some sr ∧
        sr.output_artifacts.lookup p.2.output_name = some art) →
      (inputs.map Prod.fst).Nodup →
      ∃ m ps, resolve_inputs_list store run_id inputs = .ok (m, ps) ∧
        ∀ p ∈ inputs, ∀ sr art,
          firstUpstream store run_id p.2.step_name = some sr →
          sr.output_artifacts.lookup p.2.output_name = some art →
          m.lookup p.1 = some art ∧ sr.id ∈ ps
  | [] => fun _ _ =>
    ⟨[], [], rfl, fun p hp => absurd hp (List.not_mem_nil p)⟩
  | (n, i) :: rest => fun hres hnd => by
    obtain ⟨sr0, art0, h1, h2⟩ := hres (n, i) (List.mem_cons_self _ _)
    have hndr : (rest.map Prod.fst).Nodup := (List.nodup_cons.mp hnd).2
    have hnmem : n ∉ rest.map Prod.fst := (List.nodup_cons.mp hnd).1
    obtain ⟨m, ps, hrec, hprop⟩ := resolve_inputs_list_ok store run_id rest
      (fun p hp => hres p (List.mem_cons_of_mem _ hp)) hndr
    refine ⟨(n, art0) :: m, sr0.id :: ps, ?_, ?_⟩
    · simp only [resolve_inputs_list, h1, h2, hrec]
    · intro p hp sr art hsr hart
      rcases List.mem_cons.mp hp with hpe | hpr
      · subst hpe
        have hsr2 : firstUpstream store run_id i.step_name = some sr := hsr
        rw [h1] at hsr2
        injection hsr2 with hsre
        subst hsre
        have hart2 : sr0.output_artifacts.lookup i.output_name = some art :=
          hart
        rw [h2] at hart2
        injection hart2 with harte
        subst harte
        constructor
        · show List.lookup n ((n, art0) :: m) = some art0
          simp [List.lookup_cons]
        · exact List.mem_cons_self _ _
      · have hne : p.1 ≠ n := fun hc =>
          hnmem (hc ▸ List.mem_map.mpr ⟨p, hpr, rfl⟩)
        obtain ⟨hl, hm⟩ := hprop p hpr sr art hsr hart
        constructor
        · show List.lookup p.1 ((n, art0) :: m) = some art
          have hb : (p.1 == n) = false := by simpa using hne
          simp [List.lookup_cons, hb, hl]
        · exact List.mem_cons_of_mem _ hm

/-- C5: Input resolution correctness: whenever every declared input of a
step resolves (for each declared `name -> (step_name, output_name)` the
store holds the step run of this pipeline run with that step name, and
that run records an output artifact under `output_name`), and the declared
input names are distinct (they form a dict), `resolve_step_inputs`
succeeds and its input map binds each declared input name to exactly the
artifact the producing step run recorded, while the returned
`parent_step_run_ids` list contains the producing step run's id. -/
theorem resolve_step_inputs_correct (store : List StepRunRecord)
    (run_id : Nat) (inputs : List (String × InputSpec))
    (hnd : (inputs.map Prod.fst).Nodup)
    (hres : ∀ p ∈ inputs, ∃ sr art,
      firstUpstream store run_id p.2.step_name = some sr ∧
      sr.output_artifacts.lookup p.2.output_name = some art) :
    ∃ m ps, resolve_step_inputs store inputs run_id = .ok (m, ps) ∧
      ∀ p ∈ inputs, ∀ sr art,
        firstUpstream store run_id p.2.step_name = some sr →
        sr.output_artifacts.lookup p.2.output_name = some art →
        m.lookup p.1 = some art ∧ sr.id ∈ ps := by
  obtain ⟨m, ps, hok, hprop⟩ :=
    resolve_inputs_list_ok store run_id inputs hres hnd
  refine ⟨m, ps.dedup, ?_, ?_⟩
  · rw [resolve_step_inputs, hok]
  · intro p hp sr art h1 h2
    obtain ⟨hl, hm⟩ := hprop p hp sr art h1 h2
    exact ⟨hl, List.mem_dedup.mpr hm⟩

/-- Witness for C5: a store holding the step run of step "upstream_step"
(id 10, run 1) that records artifact 42 under "output_name"; resolving the
single declared input binds "input_name" to that artifact and the parent
ids contain 10. -/
theorem resolve_step_inputs_correct_witness :
    List.lookup "input_name"
        [("input_name", (⟨42, "uri"⟩ : ArtifactRecord))] =
      some ⟨42, "uri"⟩ ∧ (10 : Nat) ∈ [(10 : Nat)] := by
  obtain ⟨m, ps, hok, hprop⟩ := resolve_step_inputs_correct
    [⟨10, 1, "upstream_step", ExecutionStatus.completed, "", 0,
      [("output_name", ⟨42, "uri"⟩)]⟩] 1
    [("input_name", ⟨"upstream_step", "output_name"⟩)]
    (by decide)
    (fun p hp => by
      rcases List.mem_singleton.mp hp with rfl
      exact ⟨⟨10, 1, "upstream_step", ExecutionStatus.completed, "", 0,
        [("output_name", ⟨42, "uri"⟩)]⟩, ⟨42, "uri"⟩, by decide, by decide⟩)
  have hval : resolve_step_inputs
      [⟨10, 1, "upstream_step", ExecutionStatus.completed, "", 0,
        [("output_name", ⟨42, "uri"⟩)]⟩]
      [("input_name", ⟨"upstream_step", "output_name"⟩)] 1 =
      .ok ([("input_name", ⟨42, "uri"⟩)], [10]) := rfl
  rw [hok] at hval
  injection hval with hpair
  have hm : m = [("input_name", ⟨42, "uri"⟩)] :=
    (Prod.mk.injEq _ _ _ _ ▸ hpair).1
  have hps : ps = [10] := (Prod.mk.injEq _ _ _ _ ▸ hpair).2
  subst hm
  subst hps
  exact hprop ("input_name", ⟨"upstream_step", "output_name"⟩) (by decide)
    ⟨10, 1, "upstream_step", ExecutionStatus.completed, "", 0,
      [("output_name", ⟨42, "uri"⟩)]⟩ ⟨42, "uri"⟩ (by decide) (by decide)

theorem resolve_inputs_list_error (store : List StepRunRecord)
    (run_id : Nat) :
    ∀ inputs : List (String × InputSpec),
      (∃ p ∈ inputs,
        firstUpstream store run_id p.2.step_name = none ∨
        ∃ sr, firstUpstream store run_id p.2.step_name = some sr ∧
          sr.output_artifacts.lookup p.2.output_name = none) →
      ∃ e, resolve_inputs_list store run_id inputs = .error e
  | [] => fun h => by
    obtain ⟨p, hp, _⟩ := h
    exact absurd hp (List.not_mem_nil p)
  | (n, i) :: rest => fun h => by
    cases hfu : firstUpstream store run_id i.step_name with
    | none =>
      exact ⟨.missingStepRun i.step_name,
        by simp only [resolve_inputs_list, hfu]⟩
    | some sr =>
      cases hlk : sr.output_artifacts.lookup i.output_name with
      | none =>
        exact ⟨.missingOutput i.step_name i.output_name,
          by simp only [resolve_inputs_list, hfu, hlk]⟩
      | some art =>
        have hrest : ∃ p ∈ rest,
            firstUpstream store run_id p.2.step_name = none ∨
            ∃ sr2, firstUpstream store run_id p.2.step_name = some sr2 ∧
              sr2.output_artifacts.lookup p.2.output_name = none := by
          obtain ⟨p, hp, hfail⟩ := h
          rcases List.mem_cons.mp hp with hpe | hpr
          · subst hpe
            rcases hfail with hnone | ⟨sr2, hs0, hl0⟩
            · have hno : firstUpstream store run_id i.step_name = none :=
                hnone
              rw [hfu] at hno
              cases hno
            · have hs2 : firstUpstream store run_id i.step_name = some sr2 :=
                hs0
              rw [hfu] at hs2
              injection hs2 with hse
              subst hse
              have hl2 : sr.output_artifacts.lookup i.output_name = none :=
                hl0
              rw [hlk] at hl2
              cases hl2
          · exact ⟨p, hpr, hfail⟩
        obtain ⟨e, he⟩ := resolve_inputs_list_error store run_id rest hrest
        exact ⟨e, by simp only [resolve_inputs_list, hfu, hlk, he]⟩

/-- C6: Input resolution failure: `resolve_step_inputs` returns an
`InputResolutionError` (its result type admits no other error kind, the
function is total, and no partial input map is returned) in each of the
two failure cases — when no step run with the referenced upstream step
name exists in the given pipeline run, and when the upstream step run
exists but records no output artifact under the declared output name. -/
theorem resolve_step_inputs_error_cases (store : List StepRunRecord)
    (run_id : Nat) (inputs : List (String × InputSpec)) :
    ((∃ p ∈ inputs, firstUpstream store run_id p.2.step_name = none) →
      ∃ e, resolve_step_inputs store inputs run_id = .error e) ∧
    ((∃ p ∈ inputs, ∃ sr,
        firstUpstream store run_id p.2.step_name = some sr ∧
        sr.output_artifacts.lookup p.2.output_name = none) →
      ∃ e, resolve_step_inputs store inputs run_id = .error e) := by
  constructor
  · intro h
    obtain ⟨p, hp, hn⟩ := h
    obtain ⟨e, he⟩ :=
      resolve_inputs_list_error store run_id inputs ⟨p, hp, Or.inl hn⟩
    exact ⟨e, by rw [resolve_step_inputs, he]⟩
  · intro h
    obtain ⟨p, hp, sr, h1, h2⟩ := h
    obtain ⟨e, he⟩ := resolve_inputs_list_error store run_id inputs
      ⟨p, hp, Or.inr ⟨sr, h1, h2⟩⟩
    exact ⟨e, by rw [resolve_step_inputs, he]⟩

/-- Witness for C6: resolving an input that references the step name
"non_existent", against an empty store, fails with the
missing-step-run variant of `InputResolutionError`. -/
theorem resolve_step_inputs_error_cases_witness :
    resolve_step_inputs [] [("input_name", ⟨"non_existent", ""⟩)] 1 =
      .error (.missingStepRun "non_existent") := by
  obtain ⟨e, he⟩ := (resolve_step_inputs_error_cases [] 1
    [("input_name", ⟨"non_existent", ""⟩)]).1
    ⟨("input_name", ⟨"non_existent", ""⟩), List.mem_singleton.mpr rfl, rfl⟩
  have hval : resolve_step_inputs []
      [("input_name", (⟨"non_existent", ""⟩ : InputSpec))] 1 =
      .error (.missingStepRun "non_existent") := rfl
  exact hval
